import Mathlib

/-!
Shallow embedding of the WallProjections interaction and calibration core
(`src/WallProjections/Scripts/main.py`, `src/WallProjections/Scripts/Hotspot.py`).

Timestamps and press values are modelled as rationals.  The Python code reads
`time.time()` inside the button methods; the per-frame loop drives all hotspots
within a single frame, so the clock reading is passed in explicitly as `now`
(one value per call).  In-place mutation of objects is modelled by returning
the updated record; the in-place mutation of the hotspot list in `run` is
modelled by an index-driven pass over a `List Hotspot`.
-/

-- Batteries marks rational arithmetic `irreducible`, which blocks `decide` on
-- concrete rational computations.  The kernel ignores reducibility, so
-- restoring the default is safe and only lets the elaborator evaluate.
set_option allowUnsafeReducibility true

attribute [semireducible] Rat.mul Rat.add Rat.sub Rat.inv Rat.div

namespace WallProjections

/-- `BUTTON_COOLDOWN = 1.5` seconds (main.py line 59): seconds of dwell needed
to fully charge a button, and seconds needed to fully discharge it. -/
def BUTTON_COOLDOWN : ℚ := 3 / 2

/-- State of `_Button` (main.py lines 77-121, Hotspot.py lines 16-60):
`finger_is_over`, `prev_time` (the last time `finger_is_over` switched value)
and `prev_pressed_amount` (the value of `get_pressed_amount` at that time). -/
structure Button where
  finger_is_over : Bool
  prev_time : ℚ
  prev_pressed_amount : ℚ

/-- `_Button.get_pressed_amount` (main.py lines 113-121): a value between 0 and
1, charging from `prev_pressed_amount` while the finger is over the hotspot and
discharging while it is not. -/
def Button.get_pressed_amount (b : Button) (now : ℚ) : ℚ :=
  let time_since_last_change := now - b.prev_time
  if b.finger_is_over then
    min 1 (b.prev_pressed_amount + time_since_last_change / BUTTON_COOLDOWN)
  else
    max 0 (b.prev_pressed_amount - time_since_last_change / BUTTON_COOLDOWN)

/-- `_Button.press` (main.py lines 92-102): called every frame the hotspot is
pressed; on a not-over-to-over transition it snapshots the current amount and
the current time; it returns whether the button is now fully pressed. -/
def Button.press (b : Button) (now : ℚ) : Button × Bool :=
  let b' :=
    if !b.finger_is_over then
      { finger_is_over := true
        prev_time := now
        prev_pressed_amount := b.get_pressed_amount now }
    else b
  (b', b'.get_pressed_amount now == 1)

/-- `_Button.un_press` (main.py lines 104-111): called every frame the hotspot
is not pressed; on an over-to-not-over transition it snapshots the current
amount and the current time. -/
def Button.un_press (b : Button) (now : ℚ) : Button :=
  if b.finger_is_over then
    { finger_is_over := false
      prev_time := now
      prev_pressed_amount := b.get_pressed_amount now }
  else b

/-- The spec's continuous press-state value function, written from the spec's
words over the spec's field names: while `fingerPresent`,
`min(1, valueAtTransition + (now - lastTransitionTime)/COOLDOWN)`, otherwise
`max(0, valueAtTransition - (now - lastTransitionTime)/COOLDOWN)`. -/
def specPressValue (fingerPresent : Bool) (valueAtTransition lastTransitionTime now : ℚ) : ℚ :=
  if fingerPresent then
    min 1 (valueAtTransition + (now - lastTransitionTime) / BUTTON_COOLDOWN)
  else
    max 0 (valueAtTransition - (now - lastTransitionTime) / BUTTON_COOLDOWN)

/-- A fingertip point in normalized camera space (`Point` NamedTuple). -/
structure Point where
  x : ℚ
  y : ℚ

/-- State of `Hotspot` (Hotspot.py lines 63-144; the `update`, `activate` and
`deactivate` bodies are identical in main.py lines 172-205). -/
structure Hotspot where
  id : ℕ
  x : ℚ
  y : ℚ
  radius : ℚ
  button : Button
  is_activated : Bool
  time_activated : ℚ

/-- `Hotspot._is_point_inside` (Hotspot.py lines 132-137). -/
def Hotspot.is_point_inside (h : Hotspot) (p : Point) : Bool :=
  decide ((h.x - p.x) ^ 2 + (h.y - p.y) ^ 2 ≤ h.radius ^ 2)

/-- `Hotspot.activate` (Hotspot.py lines 139-141). -/
def Hotspot.activate (h : Hotspot) (now : ℚ) : Hotspot :=
  { h with time_activated := now, is_activated := true }

/-- `Hotspot.deactivate` (Hotspot.py lines 143-144). -/
def Hotspot.deactivate (h : Hotspot) : Hotspot :=
  { h with is_activated := false }

/-- `Hotspot.update` (Hotspot.py lines 111-130): a no-op on an activated
hotspot; otherwise presses or un-presses the button depending on whether any
fingertip is inside, activating (and returning `true`) when the button reports
fully pressed. -/
def Hotspot.update (h : Hotspot) (points : List Point) (now : ℚ) : Hotspot × Bool :=
  if h.is_activated then
    (h, false)
  else
    let finger_inside := points.any fun p => h.is_point_inside p
    if finger_inside then
      let r := h.button.press now
      let h' := { h with button := r.1 }
      if r.2 then (h'.activate now, true) else (h', false)
    else
      ({ h with button := h.button.un_press now }, false)

/-- The inner loop of the arbitration pass (main.py lines 267-270):
`for other_hotspot in hotspots: if other_hotspot == hotspot: continue;
other_hotspot.deactivate()`.  The hotspot at index `i` (the one that just
activated) is skipped; every other hotspot is deactivated. -/
def deactivateOthers : List Hotspot → ℕ → List Hotspot
  | [], _ => []
  | h :: t, 0 => h :: t.map Hotspot.deactivate
  | h :: t, i + 1 => h.deactivate :: deactivateOthers t i

/-- The per-frame pass of `run` (main.py lines 262-272), processing the
hotspot list in order starting at index `i`: update the hotspot in place; if
it just activated, deactivate every other hotspot in the (mutated) list and
emit an activation event carrying its id.  The returned pair is the final
list and the emitted events in order.  `fuel` bounds the recursion; it is
instantiated with the list length, which every step preserves. -/
def frameLoop (points : List Point) (now : ℚ) : ℕ → ℕ → List Hotspot → List Hotspot × List ℕ
  | 0, _, hs => (hs, [])
  | fuel + 1, i, hs =>
    if hlt : i < hs.length then
      let r := (hs.get ⟨i, hlt⟩).update points now
      if r.2 then
        let rest := frameLoop points now fuel (i + 1) (deactivateOthers (hs.set i r.1) i)
        (rest.1, r.1.id :: rest.2)
      else
        frameLoop points now fuel (i + 1) (hs.set i r.1)
    else (hs, [])

/-- One whole frame of the arbitration loop in `run` (main.py lines 262-272):
process every hotspot from index 0. -/
def runFrame (points : List Point) (now : ℚ) (hs : List Hotspot) : List Hotspot × List ℕ :=
  frameLoop points now hs.length 0 hs

/-- Number of activated hotspots in a list. -/
def countActive (hs : List Hotspot) : ℕ :=
  hs.countP fun h => h.is_activated

/-- Whether a hotspot's `update` reports `justActivated` for this frame's
input: the claims' "crosses the activation threshold". -/
def crossesThreshold (points : List Point) (now : ℚ) (h : Hotspot) : Bool :=
  (h.update points now).2

/-- A 3x3 matrix, the representation of a homography. -/
structure Mat3 where
  m00 : ℚ
  m01 : ℚ
  m02 : ℚ
  m10 : ℚ
  m11 : ℚ
  m12 : ℚ
  m20 : ℚ
  m21 : ℚ
  m22 : ℚ

/-- `np.identity(3)`, as set by `skipCalibration`. -/
def Mat3.identity : Mat3 :=
  ⟨1, 0, 0, 0, 1, 0, 0, 0, 1⟩

/-- Modelled from the spec: `cv2.perspectiveTransform` is an external library
call; per the spec it applies the homography as a projective transform,
`(x', y', w') = M (x, y, 1)` with result `(x'/w', y'/w')`. -/
def perspectiveTransform (M : Mat3) (v : ℚ × ℚ) : ℚ × ℚ :=
  let w := M.m20 * v.1 + M.m21 * v.2 + M.m22
  ((M.m00 * v.1 + M.m01 * v.2 + M.m02) / w, (M.m10 * v.1 + M.m11 * v.2 + M.m12) / w)

/-- State of `Calibrator` (main.py lines 373-379). -/
structure Calibrator where
  screenWidth : ℤ
  screenHeight : ℤ
  cameraWidth : Option ℤ
  cameraHeight : Option ℤ
  tMatrix : Option Mat3
  inverseTMatrix : Option Mat3

/-- `Calibrator.__init__` (main.py lines 375-379): stores the screen size and
leaves the camera size and both transformation matrices as `None`. -/
def Calibrator.init (screenDimensions : ℤ × ℤ) : Calibrator :=
  { screenWidth := screenDimensions.1, screenHeight := screenDimensions.2
    cameraWidth := none, cameraHeight := none
    tMatrix := none, inverseTMatrix := none }

/-- `Calibrator.skipCalibration` (main.py lines 382-383): both matrices become
the identity. -/
def Calibrator.skipCalibration (c : Calibrator) : Calibrator :=
  { c with tMatrix := some Mat3.identity, inverseTMatrix := some Mat3.identity }

/-- `Calibrator.transform` (main.py lines 464-470): applies
`cv2.perspectiveTransform` with `self._tMatrix` and swaps the output axes.
When `_tMatrix` is still `None` (no calibration has succeeded), the Python
code passes `None` to `cv2.perspectiveTransform`, which raises an untyped
error; that crash is modelled as `none`. -/
def Calibrator.transform (c : Calibrator) (vector : ℚ × ℚ) : Option (ℚ × ℚ) :=
  match c.tMatrix with
  | none => none
  | some M =>
    let t := perspectiveTransform M vector
    some (t.2, t.1)

/-- `Calibrator.inverseTransform` (main.py lines 472-478): the same with
`self._inverseTMatrix`. -/
def Calibrator.inverseTransform (c : Calibrator) (vector : ℚ × ℚ) : Option (ℚ × ℚ) :=
  match c.inverseTMatrix with
  | none => none
  | some M =>
    let t := perspectiveTransform M vector
    some (t.2, t.1)

/-- The inner marker loop of `Calibrator.calibrate` (main.py lines 390-392,
also lines 356-358): `for j in range(cols): projectedCoords[code] =
(offset + spacing*i, offset + spacing*j); code += 1`, with the grid constants
as parameters (the source hard-codes `cols = 12`, `spacing = 150`,
`offset = 25`).  `n` counts the remaining columns, `j` is the current column
index and `code` the running marker id; the result pairs the emitted entries
with the final value of `code`. -/
def gridRow (spacing offset i : ℕ) : ℕ → ℕ → ℕ → List (ℕ × ℕ × ℕ) × ℕ
  | 0, _, code => ([], code)
  | n + 1, j, code =>
    let rest := gridRow spacing offset i n (j + 1) (code + 1)
    ((code, offset + spacing * i, offset + spacing * j) :: rest.1, rest.2)

/-- The outer marker loop `for i in range(rows)` of `Calibrator.calibrate`
(main.py lines 389-392), threading the running `code` through the rows. -/
def gridRows (cols spacing offset : ℕ) : ℕ → ℕ → ℕ → List (ℕ × ℕ × ℕ)
  | 0, _, _ => []
  | rows + 1, i, code =>
    let row := gridRow spacing offset i cols 0 code
    row.1 ++ gridRows cols spacing offset rows (i + 1) row.2

/-- The `projectedCoords` dictionary built by `Calibrator.calibrate` (main.py
lines 387-392) as an association list from marker id to projector position,
generalized over the grid shape; the source instantiates `rows = 6`,
`cols = 12`, `spacing = 150`, `offset = 25`. -/
def projectedCoords (rows cols spacing offset : ℕ) : List (ℕ × ℕ × ℕ) :=
  gridRows cols spacing offset rows 0 0

/-- `Calibrator._getTransformationMatrix` (main.py lines 444-462): collect the
coordinate pairs of the ids present in both dictionaries; if fewer than 4
match, print a message and return the `None` sentinel; otherwise fit a
homography over them with `cv2.findHomography`.  The fit itself is an external
library call; the model returns the matched correspondences handed to it. -/
def getTransformationMatrix (fromCoords : List (ℕ × ℕ × ℕ))
    (toCoords : List (ℕ × ℚ × ℚ)) : Option (List ((ℕ × ℕ) × ℚ × ℚ)) :=
  let pairs := fromCoords.filterMap fun e => (toCoords.lookup e.1).map fun q => (e.2, q)
  if pairs.length < 4 then none else some pairs

end WallProjections

namespace WallProjections

/-- A button that has been continuously pressed since time 0. -/
def heldButton : Button :=
  { finger_is_over := true, prev_time := 0, prev_pressed_amount := 0 }

/-- An idle button. -/
def idleButton : Button :=
  { finger_is_over := false, prev_time := 0, prev_pressed_amount := 0 }

/-- Concrete hotspot at (1/5, 1/5) whose button has been held since time 0. -/
def hotspotA : Hotspot :=
  { id := 0, x := 1/5, y := 1/5, radius := 3/100, button := heldButton
    is_activated := false, time_activated := 0 }

/-- Concrete hotspot at (4/5, 4/5) whose button has been held since time 0. -/
def hotspotB : Hotspot :=
  { id := 1, x := 4/5, y := 4/5, radius := 3/100, button := heldButton
    is_activated := false, time_activated := 0 }

/-- One fingertip inside `hotspotA` and one inside `hotspotB`. -/
def twoFingers : List Point :=
  [{ x := 1/5, y := 1/5 }, { x := 4/5, y := 4/5 }]

/-- A hotspot that is already activated. -/
def activatedHotspot (n : ℕ) : Hotspot :=
  { id := n, x := 1/5, y := 1/5, radius := 3/100, button := idleButton
    is_activated := true, time_activated := 0 }

/-- Three detected markers (ids 0, 1, 2) — below the 4 required matches. -/
def obsThree : List (ℕ × ℚ × ℚ) :=
  [(0, 0, 0), (1, 1, 0), (2, 0, 1)]

/-- Four detected markers in general position (ids 0, 1, 2, 3). -/
def obsFour : List (ℕ × ℚ × ℚ) :=
  [(0, 0, 0), (1, 1, 0), (2, 0, 1), (3, 1, 1)]

end WallProjections

namespace WallProjections

/-- Claim C3: for every press state and time `now`, the continuous value is
`min(1, valueAtTransition + (now - lastTransitionTime)/COOLDOWN)` while the
finger is present and `max(0, valueAtTransition - (now -
lastTransitionTime)/COOLDOWN)` while it is absent, where the code's
`prev_pressed_amount`, `prev_time` and `finger_is_over` realize the spec's
`valueAtTransition`, `lastTransitionTime` and `fingerPresent`. -/
theorem get_pressed_amount_matches_spec (b : Button) (now : ℚ) :
    b.get_pressed_amount now =
      specPressValue b.finger_is_over b.prev_pressed_amount b.prev_time now := by
  rfl

/-- Claim C8: `deactivate` clears `is_activated` and changes nothing else:
id, center, radius, activation time and the entire press state keep their
prior values, so the press amount as a function of time is unchanged. -/
theorem deactivate_only_clears_activated (h : Hotspot) :
    h.deactivate.is_activated = false ∧
    h.deactivate.id = h.id ∧
    h.deactivate.x = h.x ∧
    h.deactivate.y = h.y ∧
    h.deactivate.radius = h.radius ∧
    h.deactivate.time_activated = h.time_activated ∧
    h.deactivate.button = h.button ∧
    ∀ now : ℚ, h.deactivate.button.get_pressed_amount now = h.button.get_pressed_amount now :=
  ⟨rfl, rfl, rfl, rfl, rfl, rfl, rfl, fun _ => rfl⟩

/-- Claim C9: `activate now` twice leaves the hotspot exactly as `activate now`
once, and `deactivate` twice leaves it exactly as `deactivate` once. -/
theorem activate_deactivate_idempotent (h : Hotspot) (now : ℚ) :
    (h.activate now).activate now = h.activate now ∧
    h.deactivate.deactivate = h.deactivate :=
  ⟨rfl, rfl⟩

/-- Claim C10: `press` on a button whose finger is already over it, and
`un_press` on a button whose finger is already absent, mutate no field. -/
theorem press_unpress_no_retrigger (b : Button) (now : ℚ) :
    (b.finger_is_over = true → (b.press now).1 = b) ∧
    (b.finger_is_over = false → b.un_press now = b) := by
  constructor
  · intro hover
    simp [Button.press, hover]
  · intro hover
    simp [Button.un_press, hover]

/-- Witness for C10 at concrete buttons: a held button is untouched by a
further `press`, an idle button is untouched by a further `un_press`. -/
theorem press_unpress_no_retrigger_witness :
    (heldButton.press 1).1 = heldButton ∧ idleButton.un_press 1 = idleButton :=
  ⟨(press_unpress_no_retrigger heldButton 1).1 rfl,
   (press_unpress_no_retrigger idleButton 1).2 rfl⟩

/-- Claim C4: at a transition of `finger_is_over` (in either direction) the
snapshot taken into `prev_pressed_amount` is the value computed at that
instant, so the value immediately after the transition equals the value
immediately before it: there is no jump at a transition boundary.  The press
state's invariants (`prev_pressed_amount ∈ [0,1]`, as the data model demands,
and a monotone clock) are hypotheses. -/
theorem press_state_continuous_at_transition (b : Button) (now : ℚ)
    (h0 : 0 ≤ b.prev_pressed_amount) (h1 : b.prev_pressed_amount ≤ 1)
    (hmono : b.prev_time ≤ now) :
    (b.press now).1.get_pressed_amount now = b.get_pressed_amount now ∧
    (b.un_press now).get_pressed_amount now = b.get_pressed_amount now ∧
    (b.finger_is_over = false → (b.press now).1.prev_pressed_amount = b.get_pressed_amount now) ∧
    (b.finger_is_over = true → (b.un_press now).prev_pressed_amount = b.get_pressed_amount now) := by
  have hc : (0:ℚ) < BUTTON_COOLDOWN := by norm_num [BUTTON_COOLDOWN]
  have hd : 0 ≤ (now - b.prev_time) / BUTTON_COOLDOWN :=
    div_nonneg (sub_nonneg.mpr hmono) (le_of_lt hc)
  cases hover : b.finger_is_over with
  | true =>
    refine ⟨by simp [Button.press, hover], ?_, by simp [hover], fun _ => by simp [Button.un_press, hover]⟩
    simp [Button.un_press, hover, Button.get_pressed_amount]
    linarith
  | false =>
    refine ⟨?_, by simp [Button.un_press, hover], fun _ => by simp [Button.press, hover], by simp [hover]⟩
    simp [Button.press, hover, Button.get_pressed_amount]
    linarith

/-- Witness for C4: at a concrete release transition, at time 1 with the
button held since time 0, the value just after `un_press` equals the value
just before it. -/
theorem press_state_continuous_at_transition_witness :
    (heldButton.un_press 1).get_pressed_amount 1 = heldButton.get_pressed_amount 1 :=
  (press_state_continuous_at_transition heldButton 1 (by norm_num [heldButton])
    (by norm_num [heldButton]) (by norm_num [heldButton])).2.1

end WallProjections

namespace WallProjections

/-- The running marker id after one full row equals the id before it plus the
number of columns. -/
theorem gridRow_final_code (spacing offset i : ℕ) :
    ∀ (n j code : ℕ), (gridRow spacing offset i n j code).2 = code + n := by
  intro n
  induction n with
  | zero => intro j code; simp [gridRow]
  | succ n ih =>
    intro j code
    simp only [gridRow]
    rw [ih (j + 1) (code + 1)]
    omega

/-- Looking up an id emitted by one row of the marker loop. -/
theorem gridRow_lookup_lt (spacing offset i : ℕ) :
    ∀ (n j code c : ℕ), c < n →
      (gridRow spacing offset i n j code).1.lookup (code + c) =
        some (offset + spacing * i, offset + spacing * (j + c)) := by
  intro n
  induction n with
  | zero => intro j code c hc; omega
  | succ n ih =>
    intro j code c hc
    cases c with
    | zero =>
      simp [gridRow, List.lookup]
    | succ c =>
      have hne : (code + (c + 1) == code) = false := by
        simp only [beq_eq_false_iff_ne, ne_eq]
        omega
      have harg := ih (j + 1) (code + 1) c (by omega)
      rw [show code + 1 + c = code + (c + 1) by omega] at harg
      rw [show j + 1 + c = j + (c + 1) by omega] at harg
      simp only [gridRow, List.lookup, hne]
      exact harg

/-- An id at or past the end of one row of the marker loop is not in it. -/
theorem gridRow_lookup_ge (spacing offset i : ℕ) :
    ∀ (n j code c : ℕ), n ≤ c →
      (gridRow spacing offset i n j code).1.lookup (code + c) = none := by
  intro n
  induction n with
  | zero => intro j code c _; simp [gridRow, List.lookup]
  | succ n ih =>
    intro j code c hc
    have hne : (code + c == code) = false := by
      simp only [beq_eq_false_iff_ne, ne_eq]
      omega
    have harg := ih (j + 1) (code + 1) (c - 1) (by omega)
    rw [show code + 1 + (c - 1) = code + c by omega] at harg
    simp only [gridRow, List.lookup, hne]
    exact harg

/-- Lookup distributes over append when the key is found on the left. -/
theorem lookup_append_of_some {β : Type} (l1 l2 : List (ℕ × β)) (k : ℕ) (v : β)
    (h : l1.lookup k = some v) : (l1 ++ l2).lookup k = some v := by
  induction l1 with
  | nil => simp [List.lookup] at h
  | cons e t ih =>
    cases hk : (k == e.1) with
    | true =>
      simp only [List.lookup, hk] at h
      simp only [List.cons_append, List.lookup, hk]
      exact h
    | false =>
      simp only [List.lookup, hk] at h
      simp only [List.cons_append, List.lookup, hk]
      exact ih h

/-- Lookup distributes over append when the key is absent on the left. -/
theorem lookup_append_of_none {β : Type} (l1 l2 : List (ℕ × β)) (k : ℕ)
    (h : l1.lookup k = none) : (l1 ++ l2).lookup k = l2.lookup k := by
  induction l1 with
  | nil => simp
  | cons e t ih =>
    cases hk : (k == e.1) with
    | true => simp [List.lookup, hk] at h
    | false =>
      simp only [List.lookup, hk] at h
      simp only [List.cons_append, List.lookup, hk]
      exact ih h

/-- Looking up a marker id in the nested marker loop: row-major placement. -/
theorem gridRows_lookup (cols spacing offset : ℕ) :
    ∀ (rows i code c : ℕ), c < rows * cols →
      (gridRows cols spacing offset rows i code).lookup (code + c) =
        some (offset + spacing * (i + c / cols), offset + spacing * (c % cols)) := by
  intro rows
  induction rows with
  | zero => intro i code c hc; omega
  | succ rows ih =>
    intro i code c hc
    by_cases hlt : c < cols
    · have hrow := gridRow_lookup_lt spacing offset i cols 0 code c hlt
      simp only [gridRows]
      rw [lookup_append_of_some _ _ _ _ hrow]
      rw [Nat.div_eq_of_lt hlt, Nat.mod_eq_of_lt hlt]
      simp
    · push_neg at hlt
      have hcols : 0 < cols := by
        rcases Nat.eq_zero_or_pos cols with h0 | h0
        · subst h0; omega
        · exact h0
      have hnone := gridRow_lookup_ge spacing offset i cols 0 code c hlt
      simp only [gridRows]
      rw [lookup_append_of_none _ _ _ hnone, gridRow_final_code]
      have hc' : c - cols < rows * cols := by
        have : (rows + 1) * cols = rows * cols + cols := by ring
        omega
      have := ih (i + 1) (code + cols) (c - cols) hc'
      rw [show code + c = code + cols + (c - cols) by omega]
      rw [this, Nat.div_eq_sub_div hcols hlt, Nat.mod_eq_sub_mod hlt]
      rw [show i + ((c - cols) / cols + 1) = i + 1 + (c - cols) / cols from by omega]

/-- Claim C7 (amended): for every `rows` x `cols` marker grid with spacing
`spacing` and offset `offset`, and every `code < rows * cols`, the generated
layout places marker `code` at `(offset + spacing * (code / cols),
offset + spacing * (code % cols))`.  In the source's grid (6 rows of 12
columns, spacing 150, offset 25) marker 0 is at (25, 25) and marker 13 is at
(175, 175) — row 1, column 1 — not at (25, 175) as the claim's concrete
scenario states. -/
theorem projectedCoords_position (rows cols spacing offset c : ℕ)
    (h : c < rows * cols) :
    (projectedCoords rows cols spacing offset).lookup c =
      some (offset + spacing * (c / cols), offset + spacing * (c % cols)) := by
  have := gridRows_lookup cols spacing offset rows 0 0 c h
  simpa using this

/-- Witness for C7 at the source's constants: marker 13 of the 6x12 grid with
spacing 150 and offset 25 is found at the row-major position, which evaluates
to (175, 175). -/
theorem projectedCoords_position_witness :
    13 < 6 * 12 ∧
      (projectedCoords 6 12 150 25).lookup 13 =
        some (25 + 150 * (13 / 12), 25 + 150 * (13 % 12)) :=
  ⟨by decide, projectedCoords_position 6 12 150 25 13 (by decide)⟩

/-- Claim C7 counterexample: marker 13 of the source's grid is at (175, 175),
not at (25, 175) as the claim asserts. -/
theorem projectedCoords_marker13_cex :
    (projectedCoords 6 12 150 25).lookup 13 = some (175, 175) ∧
      (projectedCoords 6 12 150 25).lookup 13 ≠ some (25, 175) := by
  constructor
  · rfl
  · decide

/-- Claim C5 (code behavior at the failing input): with the source's marker
layout and only 3 detected markers, the matching-pair count is 3 < 4 and
`_getTransformationMatrix` returns the `None` sentinel rather than a typed
`InsufficientCorrespondences` error; with 4 matching markers it proceeds to
the homography fit. -/
theorem getTransformationMatrix_sentinel :
    getTransformationMatrix (projectedCoords 6 12 150 25) obsThree = none ∧
      (getTransformationMatrix (projectedCoords 6 12 150 25) obsFour).isSome = true := by
  constructor
  · rfl
  · rfl

/-- Claim C6 (code behavior at the failing input): on a freshly constructed
`Calibrator` (no `calibrate`/`skipCalibration` has succeeded), both matrices
are `None` and every transform request reaches `cv2.perspectiveTransform`
with a `None` matrix — the untyped crash modelled as `none` — rather than
failing with the typed `NotCalibrated` error the spec requires. -/
theorem transform_uncalibrated_crashes (screenDimensions : ℤ × ℤ) (vector : ℚ × ℚ) :
    (Calibrator.init screenDimensions).tMatrix = none ∧
      (Calibrator.init screenDimensions).transform vector = none ∧
      (Calibrator.init screenDimensions).inverseTransform vector = none :=
  ⟨rfl, rfl, rfl⟩

end WallProjections

namespace WallProjections

/-- `update` never changes a hotspot's id. -/
theorem update_fst_id (h : Hotspot) (points : List Point) (now : ℚ) :
    (h.update points now).1.id = h.id := by
  simp only [Hotspot.update]
  split
  · rfl
  · split
    · split
      · rfl
      · rfl
    · rfl

/-- After `update`, the hotspot is activated iff it was already activated or
the update just activated it. -/
theorem update_fst_is_activated (h : Hotspot) (points : List Point) (now : ℚ) :
    (h.update points now).1.is_activated = (h.is_activated || (h.update points now).2) := by
  simp only [Hotspot.update]
  split
  · simp [*]
  · split
    · split
      · simp [Hotspot.activate]
      · simp [*]
    · simp [*]

/-- An already activated hotspot never reports `justActivated`. -/
theorem update_snd_of_activated (h : Hotspot) (points : List Point) (now : ℚ)
    (hact : h.is_activated = true) : (h.update points now).2 = false := by
  simp [Hotspot.update, hact]

/-- Deactivating an inactive hotspot changes nothing. -/
theorem deactivate_of_inactive (h : Hotspot) (hact : h.is_activated = false) :
    h.deactivate = h := by
  cases h
  simp_all [Hotspot.deactivate]

/-- `deactivateOthers` preserves the list length. -/
theorem length_deactivateOthers :
    ∀ (l : List Hotspot) (i : ℕ), (deactivateOthers l i).length = l.length := by
  intro l
  induction l with
  | nil => intro i; rfl
  | cons h t ih =>
    intro i
    cases i with
    | zero => simp [deactivateOthers]
    | succ i => simp [deactivateOthers, ih]

/-- Entrywise description of `deactivateOthers`. -/
theorem getElem_deactivateOthers :
    ∀ (l : List Hotspot) (i m : ℕ) (hm : m < l.length)
      (hm2 : m < (deactivateOthers l i).length),
      (deactivateOthers l i)[m] = if m = i then l[m] else l[m].deactivate := by
  intro l
  induction l with
  | nil => intro i m hm hm2; simp at hm
  | cons h t ih =>
    intro i m hm hm2
    cases i with
    | zero =>
      cases m with
      | zero => simp [deactivateOthers]
      | succ m => simp [deactivateOthers]
    | succ i =>
      cases m with
      | zero => simp [deactivateOthers]
      | succ m =>
        have h1 : m < t.length := by simpa using hm
        have h2 : m < (deactivateOthers t i).length := by
          rw [length_deactivateOthers]
          exact h1
        have hrec := ih i m h1 h2
        by_cases hmi : m = i
        · subst hmi
          simp [deactivateOthers, hrec]
        · have hmi2 : ¬ (m + 1 = i + 1) := by omega
          simp [deactivateOthers, hrec, hmi, hmi2]

/-- The frame pass with no fuel returns the list unchanged. -/
theorem frameLoop_zero (points : List Point) (now : ℚ) (i : ℕ) (hs : List Hotspot) :
    frameLoop points now 0 i hs = (hs, []) := rfl

/-- The frame pass stops once the index passes the end of the list. -/
theorem frameLoop_stop (points : List Point) (now : ℚ) (fuel i : ℕ) (hs : List Hotspot)
    (hge : hs.length ≤ i) : frameLoop points now (fuel + 1) i hs = (hs, []) := by
  simp only [frameLoop]
  rw [dif_neg (by omega)]

/-- One step of the frame pass when the hotspot at `i` does not activate. -/
theorem frameLoop_step_skip (points : List Point) (now : ℚ) (fuel i : ℕ) (hs : List Hotspot)
    (hlt : i < hs.length) (hj : (hs[i].update points now).2 = false) :
    frameLoop points now (fuel + 1) i hs =
      frameLoop points now fuel (i + 1) (hs.set i (hs[i].update points now).1) := by
  simp only [frameLoop]
  rw [dif_pos hlt]
  simp [hj]

/-- One step of the frame pass when the hotspot at `i` just activated: every
other hotspot is deactivated and an event with its id is emitted. -/
theorem frameLoop_step_just (points : List Point) (now : ℚ) (fuel i : ℕ) (hs : List Hotspot)
    (hlt : i < hs.length) (hj : (hs[i].update points now).2 = true) :
    frameLoop points now (fuel + 1) i hs =
      ((frameLoop points now fuel (i + 1)
          (deactivateOthers (hs.set i (hs[i].update points now).1) i)).1,
        (hs[i].update points now).1.id ::
          (frameLoop points now fuel (i + 1)
            (deactivateOthers (hs.set i (hs[i].update points now).1) i)).2) := by
  simp only [frameLoop]
  rw [dif_pos hlt]
  simp [hj]

/-- The frame pass preserves the list length. -/
theorem length_frameLoop (points : List Point) (now : ℚ) :
    ∀ (fuel i : ℕ) (hs : List Hotspot),
      (frameLoop points now fuel i hs).1.length = hs.length := by
  intro fuel
  induction fuel with
  | zero => intro i hs; rfl
  | succ fuel ih =>
    intro i hs
    by_cases hlt : i < hs.length
    · cases hj : (hs[i].update points now).2 with
      | false =>
        rw [frameLoop_step_skip points now fuel i hs hlt hj, ih]
        simp
      | true =>
        rw [frameLoop_step_just points now fuel i hs hlt hj]
        simp only [ih, length_deactivateOthers, List.length_set]
    · rw [frameLoop_stop points now fuel i hs (by omega)]

end WallProjections

namespace WallProjections

/-- Mapping `deactivate` over a list leaves no activated hotspot. -/
theorem countActive_map_deactivate (l : List Hotspot) :
    countActive (l.map Hotspot.deactivate) = 0 := by
  induction l with
  | nil => rfl
  | cons h t ih =>
    simp only [List.map_cons, countActive, List.countP_cons] at *
    simp [Hotspot.deactivate, ih]

/-- After `deactivateOthers`, at most the skipped hotspot is activated. -/
theorem countActive_deactivateOthers_le_one :
    ∀ (l : List Hotspot) (i : ℕ), countActive (deactivateOthers l i) ≤ 1 := by
  intro l
  induction l with
  | nil => intro i; simp [deactivateOthers, countActive]
  | cons h t ih =>
    intro i
    cases i with
    | zero =>
      have h0 := countActive_map_deactivate t
      simp only [deactivateOthers, countActive, List.countP_cons] at *
      rw [h0]
      split <;> omega
    | succ i =>
      have h0 := ih i
      simp only [deactivateOthers, countActive, List.countP_cons] at *
      simp only [Hotspot.deactivate]
      simp
      omega

/-- Replacing an entry with one of the same activation status preserves the
count of activated hotspots. -/
theorem countActive_set :
    ∀ (l : List Hotspot) (i : ℕ) (a : Hotspot) (hi : i < l.length),
      a.is_activated = l[i].is_activated → countActive (l.set i a) = countActive l := by
  intro l
  induction l with
  | nil => intro i a hi; simp at hi
  | cons h t ih =>
    intro i a hi he
    cases i with
    | zero =>
      simp only [List.getElem_cons_zero] at he
      simp only [List.set_cons_zero, countActive, List.countP_cons, he]
    | succ i =>
      have h1 : i < t.length := by simpa using hi
      have he1 : a.is_activated = t[i].is_activated := by simpa using he
      simp only [List.set_cons_succ, countActive, List.countP_cons]
      have := ih i a h1 he1
      simp only [countActive] at this
      rw [this]

/-- The frame pass preserves "at most one activated hotspot". -/
theorem frameLoop_countActive (points : List Point) (now : ℚ) :
    ∀ (fuel i : ℕ) (hs : List Hotspot), countActive hs ≤ 1 →
      countActive (frameLoop points now fuel i hs).1 ≤ 1 := by
  intro fuel
  induction fuel with
  | zero => intro i hs h; exact h
  | succ fuel ih =>
    intro i hs hinv
    by_cases hlt : i < hs.length
    · cases hj : (hs[i].update points now).2 with
      | false =>
        rw [frameLoop_step_skip points now fuel i hs hlt hj]
        apply ih
        rw [countActive_set hs i _ hlt]
        · exact hinv
        · rw [update_fst_is_activated, hj]
          simp
      | true =>
        rw [frameLoop_step_just points now fuel i hs hlt hj]
        exact ih (i + 1) _ (countActive_deactivateOthers_le_one _ i)
    · rw [frameLoop_stop points now fuel i hs (by omega)]
      exact hinv

/-- Claim C1 (amended): the arbiter's per-frame pass preserves mutual
exclusion — for every list of hotspots with at most one activated hotspot (as
holds for every list the program constructs, since hotspots start
deactivated), after the pass at most one hotspot is activated. -/
theorem arbiter_preserves_mutual_exclusion (points : List Point) (now : ℚ)
    (hs : List Hotspot) (hinv : countActive hs ≤ 1) :
    countActive (runFrame points now hs).1 ≤ 1 :=
  frameLoop_countActive points now hs.length 0 hs hinv

/-- Witness for C1 at a concrete frame: two inactive hotspots, both about to
activate; after the pass at most one is activated. -/
theorem arbiter_preserves_mutual_exclusion_witness :
    countActive (runFrame twoFingers (3/2) [hotspotA, hotspotB]).1 ≤ 1 :=
  arbiter_preserves_mutual_exclusion twoFingers (3/2) [hotspotA, hotspotB] (by decide)

/-- Claim C1 counterexample: the pass does not establish mutual exclusion
from an arbitrary list — starting from two already-activated hotspots and no
fingertips, both are still activated after the pass. -/
theorem arbiter_mutual_exclusion_cex :
    ¬ countActive (runFrame [] 0 [activatedHotspot 0, activatedHotspot 1]).1 ≤ 1 := by
  decide

end WallProjections

namespace WallProjections

/-- Setting an entry below `j` does not change the suffix from `j` on. -/
theorem drop_set_of_lt {α : Type} (l : List α) (i j : ℕ) (a : α) (hij : i < j) :
    (l.set i a).drop j = l.drop j := by
  apply List.ext_getElem
  · simp
  · intro n h1 h2
    simp only [List.getElem_drop]
    rw [List.getElem_set]
    rw [if_neg (by omega)]

/-- After the winning hotspot is written at `i` and the others are
deactivated, the suffix past `i` is unchanged, provided it was inactive. -/
theorem drop_deactivateOthers_of_inactive (cur : List Hotspot) (i : ℕ) (a : Hotspot)
    (hinact : ∀ (m : ℕ) (hm : m < cur.length), i + 1 ≤ m → cur[m].is_activated = false) :
    (deactivateOthers (cur.set i a) i).drop (i + 1) = cur.drop (i + 1) := by
  apply List.ext_getElem
  · simp [length_deactivateOthers]
  · intro n h1 h2
    have hlen : (deactivateOthers (cur.set i a) i).length = cur.length := by
      simp [length_deactivateOthers]
    have hm : i + 1 + n < cur.length := by
      have := h2
      simp only [List.length_drop] at this
      omega
    have hm1 : i + 1 + n < (cur.set i a).length := by simpa using hm
    have hm2 : i + 1 + n < (deactivateOthers (cur.set i a) i).length := by omega
    simp only [List.getElem_drop]
    rw [getElem_deactivateOthers (cur.set i a) i (i + 1 + n) hm1 hm2]
    rw [if_neg (by omega), List.getElem_set, if_neg (by omega)]
    exact deactivate_of_inactive _ (hinact (i + 1 + n) hm (by omega))

/-- Full description of one arbitration pass over a suffix of inactive
hotspots, by induction on the remaining fuel: the emitted events are the ids
of exactly the hotspots from index `i` on whose `update` crosses the
activation threshold, in iteration order; and a slot `k` of the resulting
list is activated iff either `k ≥ i` crosses the threshold and no later slot
crosses it, or `k < i` was already activated and no slot from `i` on crosses
the threshold. -/
theorem frameLoop_spec (points : List Point) (now : ℚ) :
    ∀ (fuel i : ℕ) (cur : List Hotspot),
      cur.length ≤ i + fuel →
      (∀ (m : ℕ) (hm : m < cur.length), i ≤ m → cur[m].is_activated = false) →
      ((frameLoop points now fuel i cur).2 =
        ((cur.drop i).filter (crossesThreshold points now)).map Hotspot.id) ∧
      (∀ (k : ℕ) (hk : k < cur.length),
        ((frameLoop points now fuel i cur).1[k]?.map Hotspot.is_activated = some true ↔
          ((i ≤ k ∧ crossesThreshold points now cur[k] = true ∧
              ∀ (m : ℕ) (hm : m < cur.length), k < m →
                crossesThreshold points now cur[m] = false) ∨
           (k < i ∧ cur[k].is_activated = true ∧
              ∀ (m : ℕ) (hm : m < cur.length), i ≤ m →
                crossesThreshold points now cur[m] = false)))) := by
  intro fuel
  induction fuel with
  | zero =>
    intro i cur hlen hinact
    constructor
    · rw [frameLoop_zero, List.drop_eq_nil_of_le (by omega)]
      rfl
    · intro k hk
      rw [frameLoop_zero]
      simp only [List.getElem?_eq_getElem hk, Option.map_some', Option.some.injEq]
      constructor
      · intro hact
        right
        exact ⟨by omega, hact, fun m hm him => by omega⟩
      · rintro (⟨hik, _, _⟩ | ⟨_, hact, _⟩)
        · omega
        · exact hact
  | succ fuel ih =>
    intro i cur hlen hinact
    by_cases hlt : i < cur.length
    · have hacti : cur[i].is_activated = false := hinact i hlt (le_refl i)
      cases hj : (cur[i].update points now).2 with
      | false =>
        have hact' : (cur[i].update points now).1.is_activated = false := by
          rw [update_fst_is_activated, hj, hacti]
          rfl
        have hcrossi : crossesThreshold points now cur[i] = false := hj
        have hlen1 : (cur.set i (cur[i].update points now).1).length = cur.length := by
          simp
        have hinact1 : ∀ (m : ℕ) (hm : m < (cur.set i (cur[i].update points now).1).length),
            i + 1 ≤ m → (cur.set i (cur[i].update points now).1)[m].is_activated = false := by
          intro m hm him
          rw [List.getElem_set, if_neg (by omega)]
          exact hinact m (by omega) (by omega)
        obtain ⟨ihev, ihfin⟩ := ih (i + 1) (cur.set i (cur[i].update points now).1)
          (by omega) hinact1
        rw [frameLoop_step_skip points now fuel i cur hlt hj]
        constructor
        · rw [ihev, drop_set_of_lt cur i (i + 1) _ (by omega)]
          rw [List.drop_eq_getElem_cons hlt, List.filter_cons_of_neg (by simp [hcrossi])]
        · intro k hk
          rw [ihfin k (by omega)]
          have hcr_ne : ∀ (m : ℕ) (hm : m < cur.length), m ≠ i →
              crossesThreshold points now (cur.set i (cur[i].update points now).1)[m] =
                crossesThreshold points now cur[m] := by
            intro m hm hne
            congr 1
            rw [List.getElem_set, if_neg (by omega)]
          constructor
          · rintro (⟨hik, hcr, hall⟩ | ⟨hki, hact, hall⟩)
            · left
              refine ⟨by omega, ?_, ?_⟩
              · rw [hcr_ne k hk (by omega)] at hcr
                exact hcr
              · intro m hm hkm
                have := hall m (by omega) hkm
                rw [hcr_ne m hm (by omega)] at this
                exact this
            · by_cases hki' : k = i
              · subst hki'
                rw [List.getElem_set, if_pos rfl] at hact
                rw [hact'] at hact
                exact absurd hact (by simp)
              · right
                refine ⟨by omega, ?_, ?_⟩
                · rw [List.getElem_set, if_neg (by omega)] at hact
                  exact hact
                · intro m hm him
                  by_cases hmi : m = i
                  · subst hmi
                    exact hcrossi
                  · have := hall m (by omega) (by omega)
                    rw [hcr_ne m hm hmi] at this
                    exact this
          · rintro (⟨hik, hcr, hall⟩ | ⟨hki, hact, hall⟩)
            · have hki' : k ≠ i := by
                intro he
                subst he
                rw [hcrossi] at hcr
                exact absurd hcr (by simp)
              left
              refine ⟨by omega, ?_, ?_⟩
              · rw [hcr_ne k hk hki']
                exact hcr
              · intro m hm hkm
                rw [hcr_ne m (by omega) (by omega)]
                exact hall m (by omega) hkm
            · right
              refine ⟨by omega, ?_, ?_⟩
              · rw [List.getElem_set, if_neg (by omega)]
                exact hact
              · intro m hm him
                rw [hcr_ne m (by omega) (by omega)]
                exact hall m (by omega) (by omega)
      | true =>
        have hact' : (cur[i].update points now).1.is_activated = true := by
          rw [update_fst_is_activated, hj]
          simp
        have hcrossi : crossesThreshold points now cur[i] = true := hj
        have hlen2 : (deactivateOthers (cur.set i (cur[i].update points now).1) i).length =
            cur.length := by
          simp [length_deactivateOthers]
        have hget2 : ∀ (m : ℕ) (hm : m < cur.length),
            (deactivateOthers (cur.set i (cur[i].update points now).1) i)[m] =
              if m = i then (cur[i].update points now).1 else cur[m].deactivate := by
          intro m hm
          rw [getElem_deactivateOthers (cur.set i (cur[i].update points now).1) i m
            (by simpa using hm) (by omega)]
          by_cases hmi : m = i
          · subst hmi
            rw [if_pos rfl, if_pos rfl, List.getElem_set, if_pos rfl]
          · rw [if_neg hmi, if_neg hmi, List.getElem_set, if_neg (by omega)]
        have hinact2 : ∀ (m : ℕ)
            (hm : m < (deactivateOthers (cur.set i (cur[i].update points now).1) i).length),
            i + 1 ≤ m →
            (deactivateOthers (cur.set i (cur[i].update points now).1) i)[m].is_activated
              = false := by
          intro m hm him
          rw [hget2 m (by omega), if_neg (by omega)]
          simp [Hotspot.deactivate]
        obtain ⟨ihev, ihfin⟩ := ih (i + 1)
          (deactivateOthers (cur.set i (cur[i].update points now).1) i) (by omega) hinact2
        rw [frameLoop_step_just points now fuel i cur hlt hj]
        have hdrop : (deactivateOthers (cur.set i (cur[i].update points now).1) i).drop (i + 1) =
            cur.drop (i + 1) :=
          drop_deactivateOthers_of_inactive cur i _ fun m hm him => hinact m hm (by omega)
        have hcr2 : ∀ (m : ℕ) (hm : m < cur.length), i + 1 ≤ m →
            crossesThreshold points now
                (deactivateOthers (cur.set i (cur[i].update points now).1) i)[m] =
              crossesThreshold points now cur[m] := by
          intro m hm him
          congr 1
          rw [hget2 m hm, if_neg (by omega)]
          exact deactivate_of_inactive _ (hinact m hm (by omega))
        constructor
        · rw [ihev, hdrop]
          rw [List.drop_eq_getElem_cons hlt, List.filter_cons_of_pos (by simp [hcrossi])]
          simp only [List.map_cons, update_fst_id]
        · intro k hk
          rw [ihfin k (by omega)]
          constructor
          · rintro (⟨hik, hcr, hall⟩ | ⟨hki, hact, hall⟩)
            · left
              refine ⟨by omega, ?_, ?_⟩
              · rw [hcr2 k hk (by omega)] at hcr
                exact hcr
              · intro m hm hkm
                have := hall m (by omega) hkm
                rw [hcr2 m hm (by omega)] at this
                exact this
            · by_cases hki' : k = i
              · subst hki'
                left
                refine ⟨by omega, hcrossi, ?_⟩
                intro m hm hkm
                have := hall m (by omega) (by omega)
                rw [hcr2 m hm (by omega)] at this
                exact this
              · rw [hget2 k (by omega), if_neg hki'] at hact
                simp [Hotspot.deactivate] at hact
          · rintro (⟨hik, hcr, hall⟩ | ⟨hki, hact, hall⟩)
            · by_cases hki' : k = i
              · subst hki'
                right
                refine ⟨by omega, ?_, ?_⟩
                · rw [hget2 k (by omega), if_pos rfl]
                  exact hact'
                · intro m hm him
                  rw [hcr2 m (by omega) (by omega)]
                  exact hall m (by omega) (by omega)
              · left
                refine ⟨by omega, ?_, ?_⟩
                · rw [hcr2 k (by omega) (by omega)]
                  exact hcr
                · intro m hm hkm
                  rw [hcr2 m (by omega) (by omega)]
                  exact hall m (by omega) hkm
            · have := hall i (by omega) (by omega)
              rw [hcrossi] at this
              exact absurd this (by simp)
    · rw [frameLoop_stop points now fuel i cur (by omega)]
      constructor
      · rw [List.drop_eq_nil_of_le (by omega)]
        rfl
      · intro k hk
        simp only [List.getElem?_eq_getElem hk, Option.map_some', Option.some.injEq]
        constructor
        · intro hact
          right
          exact ⟨by omega, hact, fun m hm him => by omega⟩
        · rintro (⟨hik, _, _⟩ | ⟨_, hact, _⟩)
          · omega
          · exact hact

end WallProjections

namespace WallProjections

/-- Claim C2 (amended): in a frame processed by the arbiter loop over a list
of (initially) non-activated hotspots, every hotspot whose `update` crosses
the activation threshold emits its own activation event carrying its id, in
iteration order — so when two or more hotspots cross in the same frame,
multiple events are emitted, not one — and a hotspot ends the frame activated
iff it crosses the threshold and no hotspot after it in iteration order
crosses it: the last crossing hotspot wins, earlier winners are deactivated
by later ones. -/
theorem arbiter_last_wins (points : List Point) (now : ℚ) (hs : List Hotspot)
    (hinact : ∀ h ∈ hs, h.is_activated = false) :
    ((runFrame points now hs).2 =
      (hs.filter (crossesThreshold points now)).map Hotspot.id) ∧
    ∀ (k : ℕ) (hk : k < hs.length),
      ((runFrame points now hs).1[k]?.map Hotspot.is_activated = some true ↔
        (crossesThreshold points now hs[k] = true ∧
          ∀ (m : ℕ) (hm : m < hs.length), k < m →
            crossesThreshold points now hs[m] = false)) := by
  have hinact' : ∀ (m : ℕ) (hm : m < hs.length), 0 ≤ m → hs[m].is_activated = false :=
    fun m hm _ => hinact hs[m] (List.getElem_mem hm)
  obtain ⟨hev, hfin⟩ := frameLoop_spec points now hs.length 0 hs (by omega) hinact'
  constructor
  · rw [runFrame, hev, List.drop_zero]
  · intro k hk
    rw [runFrame, hfin k hk]
    constructor
    · rintro (⟨_, hcr, hall⟩ | ⟨hk0, _, _⟩)
      · exact ⟨hcr, hall⟩
      · omega
    · rintro ⟨hcr, hall⟩
      left
      exact ⟨by omega, hcr, hall⟩

/-- Witness for C2 at a concrete frame in which both hotspots cross the
threshold: the emitted events are exactly the ids of the crossing hotspots in
iteration order, which evaluates to two events, [0, 1]. -/
theorem arbiter_last_wins_witness :
    (runFrame twoFingers (3/2) [hotspotA, hotspotB]).2 = [0, 1] :=
  ((arbiter_last_wins twoFingers (3/2) [hotspotA, hotspotB] (by decide)).1).trans (by decide)

/-- Claim C2 counterexample: with hotspots 0 and 1 both crossing the
activation threshold in the same frame, the code emits two activation events,
[0, 1] — not exactly one — and the first crossing hotspot ends the frame
deactivated while the last one ends it activated. -/
theorem arbiter_first_wins_cex :
    (runFrame twoFingers (3/2) [hotspotA, hotspotB]).2 = [0, 1] ∧
      (runFrame twoFingers (3/2) [hotspotA, hotspotB]).1.map Hotspot.is_activated =
        [false, true] := by
  exact ⟨by decide, by decide⟩

end WallProjections
